import Mathlib

/-!
Verification development for the `darknessmipsv0` N64 emulator core:
a shallow embedding of its byte-order normalizer, memory subsystem and
minimal MIPS R4300i interpreter, together with theorems settling the
specification claims about them.

Machine integers are modelled as `Nat` (with explicit masking where the
source masks) and as `Int` where the source works with signed Python
integers.  Byte buffers (`bytearray`) are modelled as functions
`Nat → Nat`; the ROM image (`bytes`) as `Option (List Nat)`.
-/

set_option maxHeartbeats 1000000
set_option maxRecDepth 4000

namespace Mips

/-- `u32(x) = x & 0xFFFFFFFF` from the source (nonnegative arguments). -/
def u32 (x : Nat) : Nat := x &&& 0xFFFFFFFF

/-- `x & 0xFFFFFFFF` applied to a possibly negative Python int:
two's-complement truncation, i.e. `x mod 2^32`. -/
def u32i (x : Int) : Nat := (x % (4294967296 : Int)).toNat

/-- `s32(x)`: interpret the low 32 bits of `x` as a signed value. -/
def s32 (x : Nat) : Int :=
  let y := x % 4294967296
  if y < 2147483648 then (y : Int) else (y : Int) - 4294967296

/-- `sign16(x)`: interpret the low 16 bits of `x` as a signed value.
The source applies it to possibly negative ints (`val - 0x100` in LB),
and Python `x &= 0xFFFF` on a negative int is `x mod 2^16`. -/
def sign16 (x : Int) : Int :=
  let y := x % (65536 : Int)
  if y < 32768 then y else y - 65536

/-- `sext16(x) = u32(sign16(x))`. -/
def sext16 (x : Nat) : Nat := u32i (sign16 (x : Int))

/-- Inclusive bit slice `[lo, hi]` (0 = LSB), from `bits` in the source. -/
def bits (val lo hi : Nat) : Nat :=
  (val >>> lo) &&& ((1 <<< (hi - lo + 1)) - 1)

/-- Pointwise update of a byte buffer modelled as a function. -/
def updf (f : Nat → Nat) (i v : Nat) : Nat → Nat :=
  fun j => if j = i then v else f j

/-! ### Byte-order normalizer -/

/-- The 32-bit little-endian word swap of the `.n64` branch: the source
writes `out[i:i+4] = rom[i:i+4][::-1]` for every `i` in steps of 4, so
every non-overlapping 4-byte group is reversed in place; the final
group, when shorter than 4 bytes, is likewise reversed within itself
(Python slice assignment of the reversed short slice). -/
def swapWords : List Nat → List Nat
  | x0 :: x1 :: x2 :: x3 :: rest => x3 :: x2 :: x1 :: x0 :: swapWords rest
  | [x0, x1, x2] => [x2, x1, x0]
  | [x0, x1] => [x1, x0]
  | [x0] => [x0]
  | [] => []

/-- The 16-bit pair swap of the `.v64` branch: adjacent byte pairs are
swapped; a final odd byte is copied unchanged. -/
def swapHalves : List Nat → List Nat
  | x0 :: x1 :: rest => x1 :: x0 :: swapHalves rest
  | [x0] => [x0]
  | [] => []

/-- The big-endian magic value decoded from the first four bytes,
`(b0 << 24) | (b1 << 16) | (b2 << 8) | b3`. -/
def magicOf (rom : List Nat) : Nat :=
  (((rom.getD 0 0 <<< 24) ||| (rom.getD 1 0 <<< 16)) ||| (rom.getD 2 0 <<< 8)) ||| rom.getD 3 0

/-- `normalize_rom_to_z64_be` from the source. -/
def normalize_rom_to_z64_be (rom : List Nat) : List Nat :=
  if rom.length < 4 then rom
  else if magicOf rom = 0x80371240 then rom
  else if magicOf rom = 0x40123780 then swapWords rom
  else if magicOf rom = 0x37804012 then swapHalves rom
  else rom

/-! ### Memory -/

/-- The memory subsystem: 8 MiB RDRAM, two 4 KiB scratch buffers
(SP DMEM and SP IMEM) and an optional read-only ROM image. -/
structure Memory where
  rdram : Nat → Nat
  sp_dmem : Nat → Nat
  sp_imem : Nat → Nat
  rom_be : Option (List Nat)

/-- `rom_size`: the source keeps it equal to `len(rom_be)` (set by
`load_rom`, 0 when no ROM is loaded). -/
def Memory.rom_size (m : Memory) : Nat := (m.rom_be.getD []).length

/-- Python truthiness of `self.rom_be`: `None` and the empty byte string
are falsy. -/
def Memory.romTruthy (m : Memory) : Bool :=
  match m.rom_be with
  | none => false
  | some l => !l.isEmpty

/-- `load_rom`. -/
def Memory.load_rom (m : Memory) (data : List Nat) : Memory :=
  { m with rom_be := some data }

/-- `virt_to_phys`: fold segments by masking to the low 29 bits. -/
def virt_to_phys (addr : Nat) : Nat := addr &&& 0x1FFFFFFF

/-- `Memory._read` with `size == 1`, the only size the source ever
passes (the public multi-byte reads are composed from byte reads). -/
def Memory.readPhys (m : Memory) (phys : Nat) : Nat :=
  if 0x04000000 ≤ phys ∧ phys ≤ 0x04000FFF then m.sp_dmem (phys - 0x04000000)
  else if 0x04001000 ≤ phys ∧ phys ≤ 0x04001FFF then m.sp_imem (phys - 0x04001000)
  else if phys ≤ 0x007FFFFF then m.rdram phys
  else if (0x10000000 ≤ phys ∧ phys ≤ 0x1FBFFFFF) ∧ m.romTruthy = true then
    if phys - 0x10000000 < m.rom_size then (m.rom_be.getD []).getD (phys - 0x10000000) 0
    else 0
  else 0

/-- `Memory._write` with `size == 1`; ROM and unmapped space ignore
writes. -/
def Memory.writePhys (m : Memory) (phys val : Nat) : Memory :=
  let b := val &&& 0xFF
  if 0x04000000 ≤ phys ∧ phys ≤ 0x04000FFF then
    { m with sp_dmem := updf m.sp_dmem (phys - 0x04000000) b }
  else if 0x04001000 ≤ phys ∧ phys ≤ 0x04001FFF then
    { m with sp_imem := updf m.sp_imem (phys - 0x04001000) b }
  else if phys ≤ 0x007FFFFF then
    { m with rdram := updf m.rdram phys b }
  else m

def Memory.read_u8 (m : Memory) (addr : Nat) : Nat :=
  m.readPhys (virt_to_phys addr)

def Memory.read_u16 (m : Memory) (addr : Nat) : Nat :=
  (m.read_u8 addr <<< 8) ||| m.read_u8 (addr + 1)

def Memory.read_u32 (m : Memory) (addr : Nat) : Nat :=
  (((m.read_u8 addr <<< 24) ||| (m.read_u8 (addr + 1) <<< 16)) |||
    (m.read_u8 (addr + 2) <<< 8)) ||| m.read_u8 (addr + 3)

def Memory.write_u8 (m : Memory) (addr val : Nat) : Memory :=
  m.writePhys (virt_to_phys addr) val

def Memory.write_u16 (m : Memory) (addr val : Nat) : Memory :=
  (m.write_u8 addr ((val >>> 8) &&& 0xFF)).write_u8 (addr + 1) (val &&& 0xFF)

def Memory.write_u32 (m : Memory) (addr val : Nat) : Memory :=
  let v := val &&& 0xFFFFFFFF
  ((((m.write_u8 addr ((v >>> 24) &&& 0xFF)).write_u8
      (addr + 1) ((v >>> 16) &&& 0xFF)).write_u8
      (addr + 2) ((v >>> 8) &&& 0xFF)).write_u8
      (addr + 3) (v &&& 0xFF))

/-- `load_boot_stub_to_sp_dmem`: fails (state untouched) when the ROM is
absent/empty or shorter than 0x1000 bytes; otherwise clears all of
SP DMEM and copies ROM bytes `[0x40, 0x1000)` to the same offsets. -/
def Memory.load_boot_stub_to_sp_dmem (m : Memory) : Memory × Bool :=
  match m.rom_be with
  | none => (m, false)
  | some rom =>
    if rom.isEmpty ∨ rom.length < 0x1000 then (m, false)
    else
      ({ m with sp_dmem := fun i =>
          if i < 0x1000 then (if 0x40 ≤ i then rom.getD i 0 else 0)
          else m.sp_dmem i }, true)

/-! ### CPU core -/

/-- The architectural state of `MIPSCPU`. -/
structure MIPSCPU where
  mem : Memory
  reg : Nat → Nat
  hi : Nat
  lo : Nat
  pc : Nat
  cp0 : Nat → Nat
  running : Bool
  instructions : Nat

/-- `MIPSCPU.__init__` state for a given memory (registers, HI/LO, CP0
and the counter zero, `pc = 0xA4000040`, not running). -/
def mkCPU (m : Memory) : MIPSCPU :=
  { mem := m, reg := fun _ => 0, hi := 0, lo := 0, pc := 0xA4000040,
    cp0 := fun _ => 0, running := false, instructions := 0 }

/-- `MIPSCPU.reset`: note the source re-initializes registers, HI/LO,
CP0, `pc` and the instruction counter but never touches `running`. -/
def MIPSCPU.reset (c : MIPSCPU) : MIPSCPU :=
  { c with reg := fun i => if i = 29 then 0xA4001FF0 else 0,
           hi := 0, lo := 0, cp0 := fun _ => 0,
           pc := 0xA4000040, instructions := 0 }

/-- `MIPSCPU._read_reg`. -/
def MIPSCPU.read_reg (c : MIPSCPU) (i : Nat) : Nat :=
  if i = 0 then 0 else u32 (c.reg i)

/-- `MIPSCPU._write_reg`. -/
def MIPSCPU.write_reg (c : MIPSCPU) (i val : Nat) : MIPSCPU :=
  if i = 0 then c else { c with reg := updf c.reg i (u32 val) }

/-- `MIPSCPU._do_mult`. Python `res >> 32` on a possibly negative int is
a floor shift, i.e. `Int.fdiv res 2^32`, and `& 0xFFFFFFFF` on a
possibly negative int is `mod 2^32`. -/
def MIPSCPU.do_mult (c : MIPSCPU) (a b : Nat) (signed : Bool) : MIPSCPU :=
  let res : Int :=
    if signed then s32 a * s32 b
    else ((a &&& 0xFFFFFFFF : Nat) : Int) * ((b &&& 0xFFFFFFFF : Nat) : Int)
  { c with hi := u32i (Int.fdiv res 4294967296), lo := u32i res }

/-- `MIPSCPU._do_div`. Python `int(x / y)` on 32-bit-range ints equals
truncating division (the float quotient is never misrounded across an
integer boundary at these magnitudes), i.e. `Int.tdiv`; Python `%` is
the floor modulus `Int.fmod`. -/
def MIPSCPU.do_div (c : MIPSCPU) (a b : Nat) (signed : Bool) : MIPSCPU :=
  if b = 0 then c
  else if signed then
    { c with lo := u32i (Int.tdiv (s32 a) (s32 b)),
             hi := u32i (Int.fmod (s32 a) (s32 b)) }
  else
    { c with lo := (a &&& 0xFFFFFFFF) / (b &&& 0xFFFFFFFF),
             hi := (a &&& 0xFFFFFFFF) % (b &&& 0xFFFFFFFF) }

/-- The `op == 0x00` ("SPECIAL") block of `MIPSCPU.step`, dispatching
on the secondary function code. -/
def MIPSCPU.execSpecial (c : MIPSCPU) (instr next_pc : Nat) : MIPSCPU × Option Nat :=
  let rs := bits instr 21 25
  let rt := bits instr 16 20
  let rd := bits instr 11 15
  let sa := bits instr 6 10
  let fn := bits instr 0 5
  if fn = 0x00 then (c.write_reg rd ((c.read_reg rt <<< sa) &&& 0xFFFFFFFF), none)
  else if fn = 0x02 then (c.write_reg rd ((c.read_reg rt >>> sa) &&& 0xFFFFFFFF), none)
  else if fn = 0x03 then
    (c.write_reg rd (u32i (Int.fdiv (s32 (c.read_reg rt)) (2 ^ sa))), none)
  else if fn = 0x04 then
    (c.write_reg rd (u32 (c.read_reg rt <<< (c.read_reg rs &&& 31))), none)
  else if fn = 0x06 then
    (c.write_reg rd (u32 (c.read_reg rt >>> (c.read_reg rs &&& 31))), none)
  else if fn = 0x07 then
    (c.write_reg rd (u32i (Int.fdiv (s32 (c.read_reg rt)) (2 ^ (c.read_reg rs &&& 31)))), none)
  else if fn = 0x08 then (c, some (u32 (c.read_reg rs)))
  else if fn = 0x09 then
    let c1 := c.write_reg (if rd ≠ 0 then rd else 31) next_pc
    (c1, some (u32 (c1.read_reg rs)))
  else if fn = 0x10 then (c.write_reg rd c.hi, none)
  else if fn = 0x12 then (c.write_reg rd c.lo, none)
  else if fn = 0x11 then ({ c with hi := c.read_reg rs }, none)
  else if fn = 0x13 then ({ c with lo := c.read_reg rs }, none)
  else if fn = 0x18 then (c.do_mult (c.read_reg rs) (c.read_reg rt) true, none)
  else if fn = 0x19 then (c.do_mult (c.read_reg rs) (c.read_reg rt) false, none)
  else if fn = 0x1A then (c.do_div (c.read_reg rs) (c.read_reg rt) true, none)
  else if fn = 0x1B then (c.do_div (c.read_reg rs) (c.read_reg rt) false, none)
  else if fn = 0x21 then (c.write_reg rd (c.read_reg rs + c.read_reg rt), none)
  else if fn = 0x23 then
    (c.write_reg rd (u32i ((c.read_reg rs : Int) - (c.read_reg rt : Int))), none)
  else if fn = 0x24 then (c.write_reg rd (c.read_reg rs &&& c.read_reg rt), none)
  else if fn = 0x25 then (c.write_reg rd (c.read_reg rs ||| c.read_reg rt), none)
  else if fn = 0x26 then (c.write_reg rd (c.read_reg rs ^^^ c.read_reg rt), none)
  else if fn = 0x27 then
    (c.write_reg rd (u32i (-(((c.read_reg rs ||| c.read_reg rt : Nat) : Int) + 1))), none)
  else if fn = 0x2A then
    (c.write_reg rd (if s32 (c.read_reg rs) < s32 (c.read_reg rt) then 1 else 0), none)
  else if fn = 0x2B then
    (c.write_reg rd (if c.read_reg rs < c.read_reg rt then 1 else 0), none)
  else (c, none)

/-- The `op == 0x01` ("REGIMM") block of `MIPSCPU.step`, dispatching on
the `rt` field. -/
def MIPSCPU.execRegimm (c : MIPSCPU) (instr next_pc : Nat) : MIPSCPU × Option Nat :=
  let rs := bits instr 21 25
  let rt := bits instr 16 20
  let simm := sext16 (bits instr 0 15)
  if rt = 0x00 then
    if s32 (c.read_reg rs) < 0 then (c, some (u32 (next_pc + (simm <<< 2)))) else (c, none)
  else if rt = 0x01 then
    if 0 ≤ s32 (c.read_reg rs) then (c, some (u32 (next_pc + (simm <<< 2)))) else (c, none)
  else if rt = 0x10 then
    if s32 (c.read_reg rs) < 0 then
      (c.write_reg 31 next_pc, some (u32 (next_pc + (simm <<< 2))))
    else (c, none)
  else if rt = 0x11 then
    if 0 ≤ s32 (c.read_reg rs) then
      (c.write_reg 31 next_pc, some (u32 (next_pc + (simm <<< 2))))
    else (c, none)
  else (c, none)

/-- The decode/dispatch body of `MIPSCPU.step` for one fetched
instruction word: returns the updated state and the branch target when
the instruction is a taken branch or jump (`branch_taken`,
`branch_target` in the source). -/
def MIPSCPU.execInstr (c : MIPSCPU) (instr next_pc : Nat) : MIPSCPU × Option Nat :=
  let op := bits instr 26 31
  let rs := bits instr 21 25
  let rt := bits instr 16 20
  let rd := bits instr 11 15
  let imm := bits instr 0 15
  let simm := sext16 imm
  let target := bits instr 0 25
  if op = 0x00 then c.execSpecial instr next_pc
  else if op = 0x01 then c.execRegimm instr next_pc
  else if op = 0x02 then
    (c, some (u32 ((next_pc &&& 0xF0000000) ||| (target <<< 2))))
  else if op = 0x03 then
    (c.write_reg 31 next_pc, some (u32 ((next_pc &&& 0xF0000000) ||| (target <<< 2))))
  else if op = 0x04 then
    if c.read_reg rs = c.read_reg rt then (c, some (u32 (next_pc + (simm <<< 2)))) else (c, none)
  else if op = 0x05 then
    if c.read_reg rs ≠ c.read_reg rt then (c, some (u32 (next_pc + (simm <<< 2)))) else (c, none)
  else if op = 0x06 then
    if s32 (c.read_reg rs) ≤ 0 then (c, some (u32 (next_pc + (simm <<< 2)))) else (c, none)
  else if op = 0x07 then
    if 0 < s32 (c.read_reg rs) then (c, some (u32 (next_pc + (simm <<< 2)))) else (c, none)
  else if op = 0x08 then (c.write_reg rt (u32 (c.read_reg rs + simm)), none)
  else if op = 0x09 then (c.write_reg rt (u32 (c.read_reg rs + simm)), none)
  else if op = 0x0A then
    (c.write_reg rt (if s32 (c.read_reg rs) < (simm : Int) then 1 else 0), none)
  else if op = 0x0B then
    (c.write_reg rt (if c.read_reg rs < u32 simm then 1 else 0), none)
  else if op = 0x0C then (c.write_reg rt (c.read_reg rs &&& imm), none)
  else if op = 0x0D then (c.write_reg rt (c.read_reg rs ||| imm), none)
  else if op = 0x0E then (c.write_reg rt (c.read_reg rs ^^^ imm), none)
  else if op = 0x0F then (c.write_reg rt (imm <<< 16), none)
  else if op = 0x10 then
    if rs = 0x00 then (c.write_reg rt (c.cp0 rd), none)
    else if rs = 0x04 then ({ c with cp0 := updf c.cp0 rd (c.read_reg rt) }, none)
    else (c, none)
  else if op = 0x20 then
    let val := c.mem.read_u8 (u32 (c.read_reg rs + simm))
    (c.write_reg rt (u32i (sign16 (if val < 0x80 then (val : Int) else (val : Int) - 0x100))), none)
  else if op = 0x21 then
    (c.write_reg rt (u32i (sign16 ((c.mem.read_u16 (u32 (c.read_reg rs + simm)) : Int)))), none)
  else if op = 0x23 then
    (c.write_reg rt (c.mem.read_u32 (u32 (c.read_reg rs + simm))), none)
  else if op = 0x24 then
    (c.write_reg rt (c.mem.read_u8 (u32 (c.read_reg rs + simm))), none)
  else if op = 0x25 then
    (c.write_reg rt (c.mem.read_u16 (u32 (c.read_reg rs + simm))), none)
  else if op = 0x28 then
    ({ c with mem := c.mem.write_u8 (u32 (c.read_reg rs + simm)) (c.read_reg rt) }, none)
  else if op = 0x29 then
    ({ c with mem := c.mem.write_u16 (u32 (c.read_reg rs + simm)) (c.read_reg rt) }, none)
  else if op = 0x2B then
    ({ c with mem := c.mem.write_u32 (u32 (c.read_reg rs + simm)) (c.read_reg rt) }, none)
  else (c, none)

/-- `MIPSCPU._exec_delay_slot`: the restricted delay-slot decoder
(ADDU, OR, ORI, LUI, LW, SW); anything else is a no-op. -/
def MIPSCPU.exec_delay_slot (c : MIPSCPU) (instr : Nat) : MIPSCPU :=
  let op := bits instr 26 31
  let rs := bits instr 21 25
  let rt := bits instr 16 20
  let rd := bits instr 11 15
  let fn := bits instr 0 5
  let imm := bits instr 0 15
  let simm := sext16 imm
  if op = 0x00 ∧ fn = 0x21 then c.write_reg rd (c.read_reg rs + c.read_reg rt)
  else if op = 0x00 ∧ fn = 0x25 then c.write_reg rd (c.read_reg rs ||| c.read_reg rt)
  else if op = 0x0D then c.write_reg rt (c.read_reg rs ||| imm)
  else if op = 0x0F then c.write_reg rt (imm <<< 16)
  else if op = 0x23 then c.write_reg rt (c.mem.read_u32 (u32 (c.read_reg rs + simm)))
  else if op = 0x2B then
    { c with mem := c.mem.write_u32 (u32 (c.read_reg rs + simm)) (c.read_reg rt) }
  else c

/-- `MIPSCPU.step`: no-op while idle; otherwise fetch, execute, run the
delay slot when a branch was taken, update `pc` and count one retired
instruction. -/
def MIPSCPU.step (c : MIPSCPU) : MIPSCPU :=
  if c.running then
    let next_pc := u32 (c.pc + 4)
    let r := c.execInstr (c.mem.read_u32 c.pc) next_pc
    match r.2 with
    | some target =>
      let c2 := r.1.exec_delay_slot (r.1.mem.read_u32 next_pc)
      { c2 with pc := u32 target, instructions := c2.instructions + 1 }
    | none =>
      { r.1 with pc := next_pc, instructions := r.1.instructions + 1 }
  else c

/-- `n` consecutive `step` calls. -/
def stepN (n : Nat) (c : MIPSCPU) : MIPSCPU :=
  match n with
  | 0 => c
  | n + 1 => (stepN n c).step

/-! ### Arithmetic helper lemmas -/

theorem u32_eq_mod (x : Nat) : u32 x = x % 4294967296 := by
  have h := Nat.and_pow_two_sub_one_eq_mod x 32
  norm_num at h
  exact h

theorem virt_eq_mod (a : Nat) : virt_to_phys a = a % 536870912 := by
  have h := Nat.and_pow_two_sub_one_eq_mod a 29
  norm_num at h
  exact h

theorem land_byte_eq_mod (x : Nat) : x &&& 0xFF = x % 256 := by
  have h := Nat.and_pow_two_sub_one_eq_mod x 8
  norm_num at h
  exact h

/-- Recombining four bytes with shifts and ors equals positional
notation in base 256. -/
theorem word4_eq (b0 b1 b2 b3 : Nat) (h0 : b0 < 256) (h1 : b1 < 256)
    (h2 : b2 < 256) (h3 : b3 < 256) :
    (((b0 <<< 24) ||| (b1 <<< 16)) ||| (b2 <<< 8)) ||| b3 =
      b0 * 16777216 + b1 * 65536 + b2 * 256 + b3 := by
  rw [Nat.or_assoc, Nat.or_assoc, Nat.shiftLeft_eq, Nat.shiftLeft_eq, Nat.shiftLeft_eq,
    Nat.mul_comm b2, Nat.mul_comm b1, Nat.mul_comm b0]
  rw [← Nat.mul_add_lt_is_or (by omega : b3 < 2 ^ 8) b2]
  rw [← Nat.mul_add_lt_is_or (by omega : 2 ^ 8 * b2 + b3 < 2 ^ 16) b1]
  rw [← Nat.mul_add_lt_is_or (by omega : 2 ^ 16 * b1 + (2 ^ 8 * b2 + b3) < 2 ^ 24) b0]
  ring

/-- Recombining two bytes. -/
theorem word2_eq (b0 b1 : Nat) (h0 : b0 < 256) (h1 : b1 < 256) :
    (b0 <<< 8) ||| b1 = b0 * 256 + b1 := by
  rw [Nat.shiftLeft_eq, Nat.mul_comm b0]
  rw [← Nat.mul_add_lt_is_or (by omega : b1 < 2 ^ 8) b0]

/-! ### State-projection helper lemmas -/

theorem updf_apply (f : Nat → Nat) (i v j : Nat) :
    updf f i v j = if j = i then v else f j := rfl

theorem write_reg_reg_zero (c : MIPSCPU) (i v : Nat) :
    (c.write_reg i v).reg 0 = c.reg 0 := by
  unfold MIPSCPU.write_reg
  split
  · rfl
  · rename_i h
    have h0 : (0 : Nat) ≠ i := fun e => h e.symm
    simp [updf, h0]

theorem write_reg_mem (c : MIPSCPU) (i v : Nat) :
    (c.write_reg i v).mem = c.mem := by
  unfold MIPSCPU.write_reg; split <;> rfl

theorem write_reg_running (c : MIPSCPU) (i v : Nat) :
    (c.write_reg i v).running = c.running := by
  unfold MIPSCPU.write_reg; split <;> rfl

theorem do_mult_reg (c : MIPSCPU) (a b : Nat) (s : Bool) :
    (c.do_mult a b s).reg = c.reg := rfl

theorem do_div_reg (c : MIPSCPU) (a b : Nat) (s : Bool) :
    (c.do_div a b s).reg = c.reg := by
  unfold MIPSCPU.do_div; split_ifs <;> rfl

theorem execSpecial_reg_zero (c : MIPSCPU) (i npc : Nat) :
    ((c.execSpecial i npc).1).reg 0 = c.reg 0 := by
  unfold MIPSCPU.execSpecial
  dsimp only
  repeat' refine @iteInduction _ _ _ (fun p : MIPSCPU × Option Nat => p.1.reg 0 = c.reg 0) _ _ (fun hc => ?_) (fun hc => ?_)
  all_goals simp [write_reg_reg_zero, do_mult_reg, do_div_reg]

theorem execRegimm_reg_zero (c : MIPSCPU) (i npc : Nat) :
    ((c.execRegimm i npc).1).reg 0 = c.reg 0 := by
  unfold MIPSCPU.execRegimm
  dsimp only
  repeat' refine @iteInduction _ _ _ (fun p : MIPSCPU × Option Nat => p.1.reg 0 = c.reg 0) _ _ (fun hc => ?_) (fun hc => ?_)
  all_goals simp [write_reg_reg_zero]

theorem execInstr_reg_zero (c : MIPSCPU) (i npc : Nat) :
    ((c.execInstr i npc).1).reg 0 = c.reg 0 := by
  unfold MIPSCPU.execInstr
  dsimp only
  repeat' refine @iteInduction _ _ _ (fun p : MIPSCPU × Option Nat => p.1.reg 0 = c.reg 0) _ _ (fun hc => ?_) (fun hc => ?_)
  all_goals simp [execSpecial_reg_zero, execRegimm_reg_zero, write_reg_reg_zero,
    do_mult_reg, do_div_reg]

theorem exec_delay_slot_reg_zero (c : MIPSCPU) (i : Nat) :
    (c.exec_delay_slot i).reg 0 = c.reg 0 := by
  unfold MIPSCPU.exec_delay_slot
  dsimp only
  repeat' refine @iteInduction _ _ _ (fun d : MIPSCPU => d.reg 0 = c.reg 0) _ _ (fun hc => ?_) (fun hc => ?_)
  all_goals first
  | rfl
  | (simp only [updf]; simp [Ne.symm hc])
  | (simp [write_reg_reg_zero]; done)

theorem step_reg_zero (c : MIPSCPU) : (c.step).reg 0 = c.reg 0 := by
  unfold MIPSCPU.step
  dsimp only
  split
  · split <;> simp [exec_delay_slot_reg_zero, execInstr_reg_zero]
  · rfl

/-! ### Memory-region predicates and the byte read/write interaction -/

/-- Physical addresses backed by writable storage: work RAM (RDRAM) or
one of the two on-chip scratch buffers (SP DMEM / SP IMEM). -/
def RWphys (p : Nat) : Prop :=
  p ≤ 0x007FFFFF ∨ (0x04000000 ≤ p ∧ p ≤ 0x04001FFF)

instance (p : Nat) : Decidable (RWphys p) := by
  unfold RWphys
  infer_instance

/-- Physical addresses outside every region the source maps (work RAM,
scratch A, scratch B, cartridge window). -/
def unmappedPhys (p : Nat) : Prop :=
  ¬(0x04000000 ≤ p ∧ p ≤ 0x04000FFF) ∧ ¬(0x04001000 ≤ p ∧ p ≤ 0x04001FFF)
  ∧ ¬(p ≤ 0x007FFFFF) ∧ ¬(0x10000000 ≤ p ∧ p ≤ 0x1FBFFFFF)

instance (p : Nat) : Decidable (unmappedPhys p) := by
  unfold unmappedPhys
  infer_instance

/-- Physical addresses in the cartridge window. -/
def cartPhys (p : Nat) : Prop := 0x10000000 ≤ p ∧ p ≤ 0x1FBFFFFF

instance (p : Nat) : Decidable (cartPhys p) := by
  unfold cartPhys
  infer_instance

/-- How one byte read observes one byte write: the written byte (masked
to 8 bits) when both fold to the same writable physical address, the old
contents otherwise. -/
theorem read_u8_write_u8 (m : Memory) (a b v : Nat) :
    (m.write_u8 a v).read_u8 b =
      if virt_to_phys b = virt_to_phys a ∧ RWphys (virt_to_phys a) then v &&& 0xFF
      else m.read_u8 b := by
  unfold Memory.write_u8 Memory.read_u8 Memory.writePhys Memory.readPhys
    Memory.romTruthy Memory.rom_size RWphys
  generalize virt_to_phys a = p
  generalize virt_to_phys b = q
  dsimp only
  split_ifs <;>
    first
    | (exfalso; omega)
    | (simp only [updf]; rw [if_pos (by omega)])
    | (simp only [updf]; rw [if_neg (by omega)])
    | rfl

/-! ### Shared concrete states for witnesses and counterexamples -/

/-- A memory with all buffers zero and no ROM loaded. -/
def zeroMem : Memory :=
  { rdram := fun _ => 0, sp_dmem := fun _ => 0, sp_imem := fun _ => 0, rom_be := none }

/-- A CPU that is currently running (everything else at init defaults). -/
def cRun : MIPSCPU := { mkCPU zeroMem with running := true }

/-- A memory holding a 4096-byte ROM image of 0xAB bytes. -/
def bootMem : Memory := { zeroMem with rom_be := some (List.replicate 0x1000 0xAB) }

/-! ### C5: word store/load round-trip -/

/-- `x & 0xFFFFFFFF` as a mod. -/
theorem land32_eq_mod (x : Nat) : x &&& 0xFFFFFFFF = x % 4294967296 := by
  have h := Nat.and_pow_two_sub_one_eq_mod x 32
  norm_num at h
  exact h

/-- C5 (amended): the 32-bit store/load round-trip
`write32(a, v); read32(a) == v & 0xFFFFFFFF` holds whenever all four
byte addresses `a .. a+3` fold into writable storage (work RAM or
on-chip scratch); the word is stored big-endian one byte at a time. -/
theorem C5_word_roundtrip (m : Memory) (a v : Nat)
    (h0 : RWphys (virt_to_phys a)) (h1 : RWphys (virt_to_phys (a + 1)))
    (h2 : RWphys (virt_to_phys (a + 2))) (h3 : RWphys (virt_to_phys (a + 3))) :
    (m.write_u32 a v).read_u32 a = u32 v := by
  have e0 := virt_eq_mod a
  have e1 := virt_eq_mod (a + 1)
  have e2 := virt_eq_mod (a + 2)
  have e3 := virt_eq_mod (a + 3)
  have g0 := h0
  have g1 := h1
  have g2 := h2
  have g3 := h3
  unfold RWphys at g0 g1 g2 g3
  have p01 : ¬(virt_to_phys a = virt_to_phys (a + 1) ∧ RWphys (virt_to_phys (a + 1))) :=
    fun hh => absurd hh.1 (by omega)
  have p02 : ¬(virt_to_phys a = virt_to_phys (a + 2) ∧ RWphys (virt_to_phys (a + 2))) :=
    fun hh => absurd hh.1 (by omega)
  have p03 : ¬(virt_to_phys a = virt_to_phys (a + 3) ∧ RWphys (virt_to_phys (a + 3))) :=
    fun hh => absurd hh.1 (by omega)
  have p12 : ¬(virt_to_phys (a + 1) = virt_to_phys (a + 2) ∧ RWphys (virt_to_phys (a + 2))) :=
    fun hh => absurd hh.1 (by omega)
  have p13 : ¬(virt_to_phys (a + 1) = virt_to_phys (a + 3) ∧ RWphys (virt_to_phys (a + 3))) :=
    fun hh => absurd hh.1 (by omega)
  have p23 : ¬(virt_to_phys (a + 2) = virt_to_phys (a + 3) ∧ RWphys (virt_to_phys (a + 3))) :=
    fun hh => absurd hh.1 (by omega)
  have hw : m.write_u32 a v =
      (((m.write_u8 a (((v &&& 0xFFFFFFFF) >>> 24) &&& 0xFF)).write_u8
        (a + 1) (((v &&& 0xFFFFFFFF) >>> 16) &&& 0xFF)).write_u8
        (a + 2) (((v &&& 0xFFFFFFFF) >>> 8) &&& 0xFF)).write_u8
        (a + 3) ((v &&& 0xFFFFFFFF) &&& 0xFF) := rfl
  rw [Memory.read_u32, hw]
  rw [read_u8_write_u8, if_neg p03, read_u8_write_u8, if_neg p02,
    read_u8_write_u8, if_neg p01, read_u8_write_u8, if_pos ⟨rfl, h0⟩]
  rw [read_u8_write_u8, if_neg p13, read_u8_write_u8, if_neg p12,
    read_u8_write_u8, if_pos ⟨rfl, h1⟩]
  rw [read_u8_write_u8, if_neg p23, read_u8_write_u8, if_pos ⟨rfl, h2⟩]
  rw [read_u8_write_u8, if_pos ⟨rfl, h3⟩]
  rw [u32_eq_mod]
  simp only [land_byte_eq_mod, land32_eq_mod, Nat.shiftRight_eq_div_pow]
  rw [word4_eq _ _ _ _ (by omega) (by omega) (by omega) (by omega)]
  rw [show (2 : Nat) ^ 24 = 16777216 from by norm_num,
    show (2 : Nat) ^ 16 = 65536 from by norm_num,
    show (2 : Nat) ^ 8 = 256 from by norm_num]
  omega

/-- C5 witness: writing 0x12345678 through the KSEG1 alias 0xA4000000 of
scratch A and reading it back returns the value. -/
theorem C5_word_roundtrip_witness :
    RWphys (virt_to_phys 0xA4000000) ∧ RWphys (virt_to_phys (0xA4000000 + 1))
    ∧ RWphys (virt_to_phys (0xA4000000 + 2)) ∧ RWphys (virt_to_phys (0xA4000000 + 3))
    ∧ (zeroMem.write_u32 0xA4000000 0x12345678).read_u32 0xA4000000 = u32 0x12345678 :=
  ⟨by decide, by decide, by decide, by decide,
    C5_word_roundtrip zeroMem 0xA4000000 0x12345678
      (by decide) (by decide) (by decide) (by decide)⟩

/-- C5 counterexample: at the last byte of work RAM (folded address
0x007FFFFF) the three trailing bytes of the stored word fall into
unmapped space and are discarded, so the round-trip fails even though
the folded address of `a` itself lies in work RAM. -/
theorem C5_word_roundtrip_cex :
    virt_to_phys 0x007FFFFF ≤ 0x007FFFFF
    ∧ (zeroMem.write_u32 0x007FFFFF 0x01020304).read_u32 0x007FFFFF = 0x01000000
    ∧ (zeroMem.write_u32 0x007FFFFF 0x01020304).read_u32 0x007FFFFF ≠
        0x01020304 &&& 0xFFFFFFFF := by
  decide

/-! ### C7: unmapped and cartridge addresses -/

/-- A byte read at an unmapped folded address returns 0. -/
theorem read_u8_unmapped (m : Memory) (a : Nat)
    (h : unmappedPhys (virt_to_phys a)) : m.read_u8 a = 0 := by
  obtain ⟨h1, h2, h3, h4⟩ := h
  unfold Memory.read_u8 Memory.readPhys
  rw [if_neg h1, if_neg h2, if_neg h3, if_neg (fun hh => h4 hh.1)]

/-- A byte write at an unmapped folded address is discarded. -/
theorem write_u8_unmapped (m : Memory) (a v : Nat)
    (h : unmappedPhys (virt_to_phys a)) : m.write_u8 a v = m := by
  obtain ⟨h1, h2, h3, _⟩ := h
  unfold Memory.write_u8 Memory.writePhys
  dsimp only
  rw [if_neg h1, if_neg h2, if_neg h3]

/-- A byte write at any folded address at or above the cartridge base
(the window and everything above it) is discarded: no writable region
lies there. -/
theorem write_u8_high (m : Memory) (a v : Nat)
    (h : 0x10000000 ≤ virt_to_phys a) : m.write_u8 a v = m := by
  unfold Memory.write_u8 Memory.writePhys
  dsimp only
  rw [if_neg (by omega), if_neg (by omega), if_neg (by omega)]

/-- A byte read at a folded address at or above the cartridge base whose
cartridge offset is at or beyond the loaded image length returns 0
(inside the window the bounds check fails; above it the address is
unmapped). -/
theorem read_u8_high_beyond (m : Memory) (a : Nat)
    (h : 0x10000000 ≤ virt_to_phys a)
    (hb : m.rom_size ≤ virt_to_phys a - 0x10000000) : m.read_u8 a = 0 := by
  unfold Memory.read_u8 Memory.readPhys
  rw [if_neg (by omega), if_neg (by omega), if_neg (by omega)]
  by_cases ht : ((0x10000000 ≤ virt_to_phys a ∧ virt_to_phys a ≤ 0x1FBFFFFF) ∧
      m.romTruthy = true)
  · rw [if_pos ht, if_neg (by omega)]
  · rw [if_neg ht]

/-- C7 (amended): reads whose constituent folded byte addresses are all
unmapped return 0 and the corresponding writes leave memory unchanged,
for any memory contents (hence regardless of any prior reads/writes);
writes of every width (8/16/32-bit) whose folded start address falls in
the cartridge window are discarded entirely (their trailing bytes fold
into the window or into unmapped space, never into writable storage);
and reads of every width whose folded start address lies in the window
at an offset at or beyond the loaded image length return 0.  (Only the
claim's unmapped clauses need qualifying: a multi-byte access at an
unmapped fold can have later bytes folding into a mapped region.) -/
theorem C7_unmapped_amended :
    (∀ (m : Memory) (a : Nat), unmappedPhys (virt_to_phys a) → m.read_u8 a = 0)
    ∧ (∀ (m : Memory) (a v : Nat), unmappedPhys (virt_to_phys a) → m.write_u8 a v = m)
    ∧ (∀ (m : Memory) (a : Nat), unmappedPhys (virt_to_phys a) →
        unmappedPhys (virt_to_phys (a + 1)) → m.read_u16 a = 0)
    ∧ (∀ (m : Memory) (a v : Nat), unmappedPhys (virt_to_phys a) →
        unmappedPhys (virt_to_phys (a + 1)) → m.write_u16 a v = m)
    ∧ (∀ (m : Memory) (a : Nat), unmappedPhys (virt_to_phys a) →
        unmappedPhys (virt_to_phys (a + 1)) → unmappedPhys (virt_to_phys (a + 2)) →
        unmappedPhys (virt_to_phys (a + 3)) → m.read_u32 a = 0)
    ∧ (∀ (m : Memory) (a v : Nat), unmappedPhys (virt_to_phys a) →
        unmappedPhys (virt_to_phys (a + 1)) → unmappedPhys (virt_to_phys (a + 2)) →
        unmappedPhys (virt_to_phys (a + 3)) → m.write_u32 a v = m)
    ∧ (∀ (m : Memory) (a v : Nat), cartPhys (virt_to_phys a) → m.write_u8 a v = m)
    ∧ (∀ (m : Memory) (a v : Nat), cartPhys (virt_to_phys a) → m.write_u16 a v = m)
    ∧ (∀ (m : Memory) (a v : Nat), cartPhys (virt_to_phys a) → m.write_u32 a v = m)
    ∧ (∀ (m : Memory) (a : Nat), cartPhys (virt_to_phys a) →
        m.rom_size ≤ virt_to_phys a - 0x10000000 → m.read_u8 a = 0)
    ∧ (∀ (m : Memory) (a : Nat), cartPhys (virt_to_phys a) →
        m.rom_size ≤ virt_to_phys a - 0x10000000 → m.read_u16 a = 0)
    ∧ (∀ (m : Memory) (a : Nat), cartPhys (virt_to_phys a) →
        m.rom_size ≤ virt_to_phys a - 0x10000000 → m.read_u32 a = 0) := by
  refine ⟨read_u8_unmapped, write_u8_unmapped, ?_, ?_, ?_, ?_, ?_, ?_, ?_, ?_, ?_, ?_⟩
  · intro m a ha hb
    rw [Memory.read_u16, read_u8_unmapped m a ha, read_u8_unmapped m (a + 1) hb]
    decide
  · intro m a v ha hb
    rw [Memory.write_u16, write_u8_unmapped m a _ ha,
      write_u8_unmapped m (a + 1) (v &&& 0xFF) hb]
  · intro m a h0 h1 h2 h3
    rw [Memory.read_u32, read_u8_unmapped m a h0, read_u8_unmapped m (a + 1) h1,
      read_u8_unmapped m (a + 2) h2, read_u8_unmapped m (a + 3) h3]
    decide
  · intro m a v h0 h1 h2 h3
    have hw : m.write_u32 a v =
        (((m.write_u8 a (((v &&& 0xFFFFFFFF) >>> 24) &&& 0xFF)).write_u8
          (a + 1) (((v &&& 0xFFFFFFFF) >>> 16) &&& 0xFF)).write_u8
          (a + 2) (((v &&& 0xFFFFFFFF) >>> 8) &&& 0xFF)).write_u8
          (a + 3) ((v &&& 0xFFFFFFFF) &&& 0xFF) := rfl
    rw [hw, write_u8_unmapped m a _ h0, write_u8_unmapped m (a + 1) _ h1,
      write_u8_unmapped m (a + 2) _ h2, write_u8_unmapped m (a + 3) _ h3]
  · intro m a v hc
    obtain ⟨hc1, hc2⟩ := hc
    exact write_u8_high m a v hc1
  · intro m a v hc
    obtain ⟨hc1, hc2⟩ := hc
    have e0 := virt_eq_mod a
    have e1 := virt_eq_mod (a + 1)
    rw [Memory.write_u16, write_u8_high m a _ hc1,
      write_u8_high m (a + 1) (v &&& 0xFF) (by omega)]
  · intro m a v hc
    obtain ⟨hc1, hc2⟩ := hc
    have e0 := virt_eq_mod a
    have e1 := virt_eq_mod (a + 1)
    have e2 := virt_eq_mod (a + 2)
    have e3 := virt_eq_mod (a + 3)
    have hw : m.write_u32 a v =
        (((m.write_u8 a (((v &&& 0xFFFFFFFF) >>> 24) &&& 0xFF)).write_u8
          (a + 1) (((v &&& 0xFFFFFFFF) >>> 16) &&& 0xFF)).write_u8
          (a + 2) (((v &&& 0xFFFFFFFF) >>> 8) &&& 0xFF)).write_u8
          (a + 3) ((v &&& 0xFFFFFFFF) &&& 0xFF) := rfl
    rw [hw, write_u8_high m a _ hc1, write_u8_high m (a + 1) _ (by omega),
      write_u8_high m (a + 2) _ (by omega), write_u8_high m (a + 3) _ (by omega)]
  · intro m a hc hoff
    obtain ⟨hc1, hc2⟩ := hc
    exact read_u8_high_beyond m a hc1 hoff
  · intro m a hc hoff
    obtain ⟨hc1, hc2⟩ := hc
    have e0 := virt_eq_mod a
    have e1 := virt_eq_mod (a + 1)
    rw [Memory.read_u16, read_u8_high_beyond m a hc1 hoff,
      read_u8_high_beyond m (a + 1) (by omega) (by omega)]
    decide
  · intro m a hc hoff
    obtain ⟨hc1, hc2⟩ := hc
    have e0 := virt_eq_mod a
    have e1 := virt_eq_mod (a + 1)
    have e2 := virt_eq_mod (a + 2)
    have e3 := virt_eq_mod (a + 3)
    rw [Memory.read_u32, read_u8_high_beyond m a hc1 hoff,
      read_u8_high_beyond m (a + 1) (by omega) (by omega),
      read_u8_high_beyond m (a + 2) (by omega) (by omega),
      read_u8_high_beyond m (a + 3) (by omega) (by omega)]
    decide

/-- A memory whose scratch A holds 0xAB at offset 0. -/
def dmemAB : Memory := { zeroMem with sp_dmem := fun i => if i = 0 then 0xAB else 0 }

/-- C7 counterexample: virtual address 0x03FFFFFF folds outside every
region, yet a 16-bit read there returns the scratch-A byte at folded
address 0x04000000 (its second byte), and a 16-bit write there stores
its low byte into scratch A — refuting the claim as stated for
multi-byte accesses at region boundaries. -/
theorem C7_unmapped_cex :
    unmappedPhys (virt_to_phys 0x03FFFFFF)
    ∧ dmemAB.read_u16 0x03FFFFFF = 0xAB
    ∧ dmemAB.read_u16 0x03FFFFFF ≠ 0
    ∧ (zeroMem.write_u16 0x03FFFFFF 0x0102).sp_dmem 0 = 0x02
    ∧ zeroMem.sp_dmem 0 = 0 := by
  decide

/-- C7 witness: address 0x00800000 (just past work RAM) and its three
successors are unmapped — reads return 0 and a word write is absorbed;
byte and word writes into the cartridge window are discarded; byte and
word reads beyond the loaded image length (here: no image) return 0. -/
theorem C7_unmapped_witness :
    unmappedPhys (virt_to_phys 0x00800000)
    ∧ unmappedPhys (virt_to_phys (0x00800000 + 1))
    ∧ unmappedPhys (virt_to_phys (0x00800000 + 2))
    ∧ unmappedPhys (virt_to_phys (0x00800000 + 3))
    ∧ dmemAB.read_u32 0x00800000 = 0
    ∧ dmemAB.write_u32 0x00800000 0xDEAD = dmemAB
    ∧ bootMem.write_u8 0x10000000 5 = bootMem
    ∧ bootMem.write_u32 0x10000000 0xDEADBEEF = bootMem
    ∧ zeroMem.read_u8 0x10000000 = 0
    ∧ zeroMem.read_u32 0x10000000 = 0 :=
  ⟨by decide, by decide, by decide, by decide,
    C7_unmapped_amended.2.2.2.2.1 dmemAB 0x00800000
      (by decide) (by decide) (by decide) (by decide),
    C7_unmapped_amended.2.2.2.2.2.1 dmemAB 0x00800000 0xDEAD
      (by decide) (by decide) (by decide) (by decide),
    C7_unmapped_amended.2.2.2.2.2.2.1 bootMem 0x10000000 5 (by decide),
    C7_unmapped_amended.2.2.2.2.2.2.2.2.1 bootMem 0x10000000 0xDEADBEEF (by decide),
    C7_unmapped_amended.2.2.2.2.2.2.2.2.2.1 zeroMem 0x10000000 (by decide) (by decide),
    C7_unmapped_amended.2.2.2.2.2.2.2.2.2.2.2 zeroMem 0x10000000 (by decide) (by decide)⟩

/-! ### C3 and C9: byte-order normalizer -/

/-- `magicOf` on a list of length at least 4 only inspects the first
four elements. -/
theorem magicOf_cons (x0 x1 x2 x3 : Nat) (rest : List Nat) :
    magicOf (x0 :: x1 :: x2 :: x3 :: rest) =
      (((x0 <<< 24) ||| (x1 <<< 16)) ||| (x2 <<< 8)) ||| x3 := rfl

/-- The word swap preserves length. -/
theorem swapWords_length (l : List Nat) : (swapWords l).length = l.length := by
  induction l using swapWords.induct <;> simp [swapWords, *]

/-- Every aligned 4-byte group of the word swap (the final, possibly
shorter group included) is the reversal of the corresponding group of
the input. -/
theorem swapWords_chunk (l : List Nat) (k : Nat) :
    ((swapWords l).drop (4 * k)).take 4 = ((l.drop (4 * k)).take 4).reverse := by
  induction l using swapWords.induct generalizing k with
  | case1 x0 x1 x2 x3 rest ih =>
    cases k with
    | zero => simp [swapWords]
    | succ k2 =>
      have h4 : 4 * (k2 + 1) = 4 * k2 + 1 + 1 + 1 + 1 := by ring
      rw [h4]
      show ((swapWords (x0 :: x1 :: x2 :: x3 :: rest)).drop (4 * k2 + 1 + 1 + 1 + 1)).take 4 = _
      rw [show swapWords (x0 :: x1 :: x2 :: x3 :: rest) =
          x3 :: x2 :: x1 :: x0 :: swapWords rest from rfl]
      rw [List.drop_succ_cons, List.drop_succ_cons, List.drop_succ_cons, List.drop_succ_cons,
        List.drop_succ_cons, List.drop_succ_cons, List.drop_succ_cons, List.drop_succ_cons]
      exact ih k2
  | case2 x0 x1 x2 =>
    cases k with
    | zero => simp [swapWords]
    | succ k2 =>
      rw [List.drop_eq_nil_of_le (by simp [swapWords]; omega),
        List.drop_eq_nil_of_le (by simp; omega)]
      rfl
  | case3 x0 x1 =>
    cases k with
    | zero => simp [swapWords]
    | succ k2 =>
      rw [List.drop_eq_nil_of_le (by simp [swapWords]; omega),
        List.drop_eq_nil_of_le (by simp; omega)]
      rfl
  | case4 x0 =>
    cases k with
    | zero => simp [swapWords]
    | succ k2 =>
      rw [List.drop_eq_nil_of_le (by simp [swapWords]; omega),
        List.drop_eq_nil_of_le (by simp; omega)]
      rfl
  | case5 =>
    cases k <;> simp [swapWords]

/-- C3 (amended): on byte sequences with the little-endian magic
0x40123780 (and length a multiple of 4) or the byteswapped magic
0x37804012, `normalize` is idempotent — the second application sees the
canonical magic 0x80371240 and returns its input unchanged (it does not
return the original input, so normalize is not its own inverse). -/
theorem C3_normalize_idempotent :
    (∀ l : List Nat, (∀ b ∈ l, b < 256) → 4 ≤ l.length → l.length % 4 = 0 →
      magicOf l = 0x40123780 →
      normalize_rom_to_z64_be (normalize_rom_to_z64_be l) = normalize_rom_to_z64_be l)
    ∧ (∀ l : List Nat, (∀ b ∈ l, b < 256) → 4 ≤ l.length →
      magicOf l = 0x37804012 →
      normalize_rom_to_z64_be (normalize_rom_to_z64_be l) = normalize_rom_to_z64_be l) := by
  constructor
  · intro l hb hlen hmod hm
    rcases l with _ | ⟨x0, _ | ⟨x1, _ | ⟨x2, _ | ⟨x3, rest⟩⟩⟩⟩ <;> simp at hlen
    have h0 : x0 < 256 := hb _ (by simp)
    have h1 : x1 < 256 := hb _ (by simp)
    have h2 : x2 < 256 := hb _ (by simp)
    have h3 : x3 < 256 := hb _ (by simp)
    have hd : x0 = 0x40 ∧ x1 = 0x12 ∧ x2 = 0x37 ∧ x3 = 0x80 := by
      rw [magicOf_cons, word4_eq _ _ _ _ h0 h1 h2 h3] at hm
      omega
    obtain ⟨rfl, rfl, rfl, rfl⟩ := hd
    have hmagic : magicOf (0x40 :: 0x12 :: 0x37 :: 0x80 :: rest) = 0x40123780 := by
      rw [magicOf_cons]
      decide
    have hn1 : normalize_rom_to_z64_be (0x40 :: 0x12 :: 0x37 :: 0x80 :: rest) =
        0x80 :: 0x37 :: 0x12 :: 0x40 :: swapWords rest := by
      unfold normalize_rom_to_z64_be
      rw [if_neg (by simp only [List.length_cons]; omega),
        if_neg (by rw [hmagic]; decide), if_pos hmagic]
      rfl
    rw [hn1]
    unfold normalize_rom_to_z64_be
    rw [if_neg (by simp only [List.length_cons]; omega),
      if_pos (show magicOf (0x80 :: 0x37 :: 0x12 :: 0x40 :: swapWords rest) =
        0x80371240 by rw [magicOf_cons]; decide)]
  · intro l hb hlen hm
    rcases l with _ | ⟨x0, _ | ⟨x1, _ | ⟨x2, _ | ⟨x3, rest⟩⟩⟩⟩ <;> simp at hlen
    have h0 : x0 < 256 := hb _ (by simp)
    have h1 : x1 < 256 := hb _ (by simp)
    have h2 : x2 < 256 := hb _ (by simp)
    have h3 : x3 < 256 := hb _ (by simp)
    have hd : x0 = 0x37 ∧ x1 = 0x80 ∧ x2 = 0x40 ∧ x3 = 0x12 := by
      rw [magicOf_cons, word4_eq _ _ _ _ h0 h1 h2 h3] at hm
      omega
    obtain ⟨rfl, rfl, rfl, rfl⟩ := hd
    have hmagic : magicOf (0x37 :: 0x80 :: 0x40 :: 0x12 :: rest) = 0x37804012 := by
      rw [magicOf_cons]
      decide
    have hn1 : normalize_rom_to_z64_be (0x37 :: 0x80 :: 0x40 :: 0x12 :: rest) =
        0x80 :: 0x37 :: 0x12 :: 0x40 :: swapHalves rest := by
      unfold normalize_rom_to_z64_be
      rw [if_neg (by simp only [List.length_cons]; omega),
        if_neg (by rw [hmagic]; decide), if_neg (by rw [hmagic]; decide),
        if_pos hmagic]
      rfl
    rw [hn1]
    unfold normalize_rom_to_z64_be
    rw [if_neg (by simp only [List.length_cons]; omega),
      if_pos (show magicOf (0x80 :: 0x37 :: 0x12 :: 0x40 :: swapHalves rest) =
        0x80371240 by rw [magicOf_cons]; decide)]

/-- C3 witness: idempotence at the two concrete magic headers. -/
theorem C3_normalize_idempotent_witness :
    normalize_rom_to_z64_be (normalize_rom_to_z64_be [0x40, 0x12, 0x37, 0x80]) =
      normalize_rom_to_z64_be [0x40, 0x12, 0x37, 0x80]
    ∧ normalize_rom_to_z64_be (normalize_rom_to_z64_be [0x37, 0x80, 0x40, 0x12]) =
      normalize_rom_to_z64_be [0x37, 0x80, 0x40, 0x12] :=
  ⟨C3_normalize_idempotent.1 [0x40, 0x12, 0x37, 0x80]
      (by decide) (by decide) (by decide) (by decide),
   C3_normalize_idempotent.2 [0x37, 0x80, 0x40, 0x12]
      (by decide) (by decide) (by decide)⟩

/-- C3 counterexample: `normalize` is not its own inverse — the first
application produces the canonical big-endian image (magic 0x80371240),
which the second application returns unchanged instead of restoring the
original byte order. -/
theorem C3_involution_cex :
    normalize_rom_to_z64_be (normalize_rom_to_z64_be [0x40, 0x12, 0x37, 0x80]) ≠
      [0x40, 0x12, 0x37, 0x80]
    ∧ ([0x40, 0x12, 0x37, 0x80] : List Nat).length % 4 = 0
    ∧ normalize_rom_to_z64_be (normalize_rom_to_z64_be [0x37, 0x80, 0x40, 0x12]) ≠
      [0x37, 0x80, 0x40, 0x12] := by
  decide

/-- C9 (amended): for a byte sequence with magic 0x40123780 whose
length is not a multiple of 4, `normalize` preserves the length and
reverses the bytes within every non-overlapping aligned 4-byte group —
including the final partial group, which is reversed within itself
(slice assignment of the reversed short slice), not passed through
unchanged. -/
theorem C9_partial_group_amended (l : List Nat) (hb : ∀ b ∈ l, b < 256)
    (hlen : 4 ≤ l.length) (hmod : l.length % 4 ≠ 0)
    (hm : magicOf l = 0x40123780) :
    (normalize_rom_to_z64_be l).length = l.length
    ∧ ∀ k, ((normalize_rom_to_z64_be l).drop (4 * k)).take 4 =
        ((l.drop (4 * k)).take 4).reverse := by
  have hn1 : normalize_rom_to_z64_be l = swapWords l := by
    unfold normalize_rom_to_z64_be
    rw [if_neg (by omega), if_neg (by rw [hm]; decide), if_pos hm]
  rw [hn1]
  exact ⟨swapWords_length l, fun k => swapWords_chunk l k⟩

/-- C9 witness: the six-byte image [0x40,0x12,0x37,0x80,1,2] keeps its
length and both its groups — the complete head group and the two-byte
tail group — are reversed. -/
theorem C9_partial_group_witness :
    (normalize_rom_to_z64_be [0x40, 0x12, 0x37, 0x80, 1, 2]).length =
      ([0x40, 0x12, 0x37, 0x80, 1, 2] : List Nat).length
    ∧ ((normalize_rom_to_z64_be [0x40, 0x12, 0x37, 0x80, 1, 2]).drop 4).take 4 =
        ((([0x40, 0x12, 0x37, 0x80, 1, 2] : List Nat).drop 4).take 4).reverse :=
  ⟨(C9_partial_group_amended [0x40, 0x12, 0x37, 0x80, 1, 2]
      (by decide) (by decide) (by decide) (by decide)).1,
   (C9_partial_group_amended [0x40, 0x12, 0x37, 0x80, 1, 2]
      (by decide) (by decide) (by decide) (by decide)).2 1⟩

/-- C9 counterexample: the final partial group is reversed by the code,
not left in its original order as the claim states. -/
theorem C9_partial_group_cex :
    normalize_rom_to_z64_be [0x40, 0x12, 0x37, 0x80, 1, 2] =
      [0x80, 0x37, 0x12, 0x40, 2, 1]
    ∧ (normalize_rom_to_z64_be [0x40, 0x12, 0x37, 0x80, 1, 2]).getD 4 0 ≠
        ([0x40, 0x12, 0x37, 0x80, 1, 2] : List Nat).getD 4 0 := by
  decide

/-! ### Step-shape helper lemmas -/

/-- One `step` call on a running CPU whose fetched instruction is not a
taken branch: the post-dispatch state with `pc` advanced by 4 and the
counter bumped once. -/
theorem step_no_branch (c : MIPSCPU) (hrun : c.running = true) (c1 : MIPSCPU)
    (h : c.execInstr (c.mem.read_u32 c.pc) (u32 (c.pc + 4)) = (c1, none)) :
    c.step = { c1 with pc := u32 (c.pc + 4), instructions := c1.instructions + 1 } := by
  unfold MIPSCPU.step
  rw [hrun]
  dsimp only
  rw [h]
  rfl

/-- Modelled from the spec sentence for a taken branch: the delay-slot
instruction at `pc + 4` is fetched from the post-dispatch state and
executed exactly once by the restricted delay-slot decoder, after which
the program counter becomes the branch target and the instruction
counter advances by one. -/
def branchStepResult (c : MIPSCPU) (t : Nat) : MIPSCPU :=
  let next_pc := u32 (c.pc + 4)
  let c1 := (c.execInstr (c.mem.read_u32 c.pc) next_pc).1
  let c2 := c1.exec_delay_slot (c1.mem.read_u32 next_pc)
  { c2 with pc := u32 t, instructions := c2.instructions + 1 }

/-- One `step` call on a running CPU whose fetched instruction is a
taken branch with target `t` equals the spec-described two-phase
execution. -/
theorem step_branch (c : MIPSCPU) (t : Nat) (hrun : c.running = true)
    (h : (c.execInstr (c.mem.read_u32 c.pc) (u32 (c.pc + 4))).2 = some t) :
    c.step = branchStepResult c t := by
  unfold MIPSCPU.step branchStepResult
  rw [hrun]
  dsimp only
  rw [h]
  rfl

/-- The instruction subset the delay-slot decoder executes:
ADDU, OR, ORI, LUI, LW, SW. -/
def delayOpcode (i : Nat) : Prop :=
  (bits i 26 31 = 0x00 ∧ (bits i 0 5 = 0x21 ∨ bits i 0 5 = 0x25))
  ∨ bits i 26 31 = 0x0D ∨ bits i 26 31 = 0x0F
  ∨ bits i 26 31 = 0x23 ∨ bits i 26 31 = 0x2B

instance (i : Nat) : Decidable (delayOpcode i) := by
  unfold delayOpcode
  infer_instance

/-- Outside the restricted subset the delay-slot decoder is a no-op. -/
theorem exec_delay_slot_noop (d : MIPSCPU) (i : Nat) (h : ¬delayOpcode i) :
    d.exec_delay_slot i = d := by
  have h1 : ¬(bits i 26 31 = 0 ∧ bits i 0 5 = 0x21) :=
    fun hh => h (Or.inl ⟨hh.1, Or.inl hh.2⟩)
  have h2 : ¬(bits i 26 31 = 0 ∧ bits i 0 5 = 0x25) :=
    fun hh => h (Or.inl ⟨hh.1, Or.inr hh.2⟩)
  have h3 : ¬bits i 26 31 = 0x0D := fun hh => h (Or.inr (Or.inl hh))
  have h4 : ¬bits i 26 31 = 0x0F := fun hh => h (Or.inr (Or.inr (Or.inl hh)))
  have h5 : ¬bits i 26 31 = 0x23 := fun hh => h (Or.inr (Or.inr (Or.inr (Or.inl hh))))
  have h6 : ¬bits i 26 31 = 0x2B := fun hh => h (Or.inr (Or.inr (Or.inr (Or.inr hh))))
  unfold MIPSCPU.exec_delay_slot
  dsimp only
  rw [if_neg h1, if_neg h2, if_neg h3, if_neg h4, if_neg h5, if_neg h6]

/-- A SW in the delay slot performs exactly its 32-bit store. -/
theorem exec_delay_slot_sw (d : MIPSCPU) (i : Nat) (h : bits i 26 31 = 0x2B) :
    d.exec_delay_slot i =
      { d with mem := (d.mem.write_u32 (u32 (d.read_reg (bits i 21 25) + sext16 (bits i 0 15)))
          (d.read_reg (bits i 16 20))) } := by
  unfold MIPSCPU.exec_delay_slot
  dsimp only
  rw [if_neg (by simp [h]), if_neg (by simp [h]), if_neg (by simp [h]),
    if_neg (by simp [h]), if_neg (by simp [h]), if_pos h]

/-! ### C1: branch-delay-slot semantics -/

/-- C1: when a running CPU fetches a taken branch or jump with target
`t`, the single `step()` call equals the spec-described sequence — the
instruction at `pc + 4` is fetched and executed exactly once by the
restricted delay-slot decoder before the program counter is set to the
target; any delay-slot opcode outside {ADDU, OR, ORI, LUI, LW, SW}
(including a nested branch) has no effect; a SW delay slot performs
exactly its store; and with a SW in the delay slot, after the one step
both the store and the target program counter are observable. -/
theorem C1_branch_delay_slot :
    (∀ (c : MIPSCPU) (t : Nat), c.running = true →
      (c.execInstr (c.mem.read_u32 c.pc) (u32 (c.pc + 4))).2 = some t →
      c.step = branchStepResult c t)
    ∧ (∀ (d : MIPSCPU) (i : Nat), ¬delayOpcode i → d.exec_delay_slot i = d)
    ∧ (∀ (d : MIPSCPU) (i : Nat), bits i 26 31 = 0x2B →
      d.exec_delay_slot i =
        { d with mem := (d.mem.write_u32
            (u32 (d.read_reg (bits i 21 25) + sext16 (bits i 0 15)))
            (d.read_reg (bits i 16 20))) })
    ∧ (∀ (c : MIPSCPU) (t : Nat), c.running = true →
      (c.execInstr (c.mem.read_u32 c.pc) (u32 (c.pc + 4))).2 = some t →
      bits ((c.execInstr (c.mem.read_u32 c.pc) (u32 (c.pc + 4))).1.mem.read_u32
        (u32 (c.pc + 4))) 26 31 = 0x2B →
      (c.step).pc = u32 t
      ∧ (c.step).mem =
          (let c1 := (c.execInstr (c.mem.read_u32 c.pc) (u32 (c.pc + 4))).1
           let di := c1.mem.read_u32 (u32 (c.pc + 4))
           c1.mem.write_u32 (u32 (c1.read_reg (bits di 21 25) + sext16 (bits di 0 15)))
             (c1.read_reg (bits di 16 20)))) := by
  refine ⟨step_branch, exec_delay_slot_noop, exec_delay_slot_sw, ?_⟩
  intro c t hrun hbr hsw
  rw [step_branch c t hrun hbr]
  unfold branchStepResult
  dsimp only
  rw [exec_delay_slot_sw _ _ hsw]
  exact ⟨rfl, rfl⟩

/-- Memory holding `BEQ r0, r0, +1` (0x10000001) at address 0. -/
def brMem : Memory :=
  { zeroMem with rdram := fun i => if i = 0 then 0x10 else if i = 3 then 1 else 0 }

/-- A running CPU about to execute the always-taken BEQ at pc 0. -/
def cBr : MIPSCPU := { mkCPU brMem with running := true, pc := 0 }

/-- Memory holding `BEQ r0, r0, +1` at 0 and `SW r0, 0x100(r0)`
(0xAC000100) in its delay slot at 4. -/
def swMem : Memory :=
  { zeroMem with rdram := fun i =>
      if i = 0 then 0x10 else if i = 3 then 1 else
      if i = 4 then 0xAC else if i = 6 then 0x01 else 0 }

/-- A running CPU about to execute the BEQ with the SW delay slot. -/
def cSW : MIPSCPU := { mkCPU swMem with running := true, pc := 0 }

/-- C1 witness: the concrete always-taken BEQ at pc 0 steps to the
spec-described branch result with target 8, and with a SW delay slot
the target pc is observable after the one step. -/
theorem C1_branch_delay_slot_witness :
    cBr.step = branchStepResult cBr 8 ∧ (cSW.step).pc = u32 8 :=
  ⟨C1_branch_delay_slot.1 cBr 8 rfl (by decide),
   (C1_branch_delay_slot.2.2.2 cSW 8 rfl (by decide) (by decide)).1⟩

/-! ### C10: BLTZAL / BGEZAL -/

/-- C10: the branch-and-link instructions link only when taken — when
the condition on the source register fails, one `step()` leaves every
general register (in particular register 31) unchanged and merely
advances the pc by 4; when the condition holds, the dispatch writes the
return address into register 31. -/
theorem C10_bltzal_bgezal_link :
    (∀ c : MIPSCPU, c.running = true →
      bits (c.mem.read_u32 c.pc) 26 31 = 0x01 →
      bits (c.mem.read_u32 c.pc) 16 20 = 0x10 →
      ¬(s32 (c.read_reg (bits (c.mem.read_u32 c.pc) 21 25)) < 0) →
      (c.step).reg = c.reg ∧ (c.step).pc = u32 (c.pc + 4))
    ∧ (∀ c : MIPSCPU, c.running = true →
      bits (c.mem.read_u32 c.pc) 26 31 = 0x01 →
      bits (c.mem.read_u32 c.pc) 16 20 = 0x11 →
      s32 (c.read_reg (bits (c.mem.read_u32 c.pc) 21 25)) < 0 →
      (c.step).reg = c.reg ∧ (c.step).pc = u32 (c.pc + 4))
    ∧ (∀ (c : MIPSCPU) (i npc : Nat), bits i 26 31 = 0x01 → bits i 16 20 = 0x10 →
      s32 (c.read_reg (bits i 21 25)) < 0 →
      ((c.execInstr i npc).1).reg 31 = u32 npc)
    ∧ (∀ (c : MIPSCPU) (i npc : Nat), bits i 26 31 = 0x01 → bits i 16 20 = 0x11 →
      0 ≤ s32 (c.read_reg (bits i 21 25)) →
      ((c.execInstr i npc).1).reg 31 = u32 npc) := by
  refine ⟨?_, ?_, ?_, ?_⟩
  · intro c hrun hop hrt hcond
    have hni : c.execInstr (c.mem.read_u32 c.pc) (u32 (c.pc + 4)) = (c, none) := by
      unfold MIPSCPU.execInstr MIPSCPU.execRegimm
      dsimp only
      rw [if_neg (by simp [hop]), if_pos hop, if_neg (by simp [hrt]),
        if_neg (by simp [hrt]), if_pos hrt, if_neg hcond]
    rw [step_no_branch c hrun c hni]
    exact ⟨rfl, rfl⟩
  · intro c hrun hop hrt hcond
    have hni : c.execInstr (c.mem.read_u32 c.pc) (u32 (c.pc + 4)) = (c, none) := by
      unfold MIPSCPU.execInstr MIPSCPU.execRegimm
      dsimp only
      rw [if_neg (by simp [hop]), if_pos hop, if_neg (by simp [hrt]),
        if_neg (by simp [hrt]), if_neg (by simp [hrt]), if_pos hrt,
        if_neg (not_le.mpr hcond)]
    rw [step_no_branch c hrun c hni]
    exact ⟨rfl, rfl⟩
  · intro c i npc hop hrt hcond
    unfold MIPSCPU.execInstr MIPSCPU.execRegimm
    dsimp only
    rw [if_neg (by simp [hop]), if_pos hop, if_neg (by simp [hrt]),
      if_neg (by simp [hrt]), if_pos hrt, if_pos hcond]
    simp [MIPSCPU.write_reg, updf]
  · intro c i npc hop hrt hcond
    unfold MIPSCPU.execInstr MIPSCPU.execRegimm
    dsimp only
    rw [if_neg (by simp [hop]), if_pos hop, if_neg (by simp [hrt]),
      if_neg (by simp [hrt]), if_neg (by simp [hrt]), if_pos hrt, if_pos hcond]
    simp [MIPSCPU.write_reg, updf]

/-- Memory holding `BLTZAL r0, +0` (0x04100000) at address 0: the
condition r0 < 0 is false, so no link occurs. -/
def blMem : Memory :=
  { zeroMem with rdram := fun i => if i = 0 then 0x04 else if i = 1 then 0x10 else 0 }

/-- A running CPU about to execute the not-taken BLTZAL. -/
def cBl : MIPSCPU := { mkCPU blMem with running := true, pc := 0 }

/-- Memory holding `BGEZAL r0, +0` (0x04110000) at address 0: the
condition r0 >= 0 holds, so the link is written. -/
def bgeMem : Memory :=
  { zeroMem with rdram := fun i => if i = 0 then 0x04 else if i = 1 then 0x11 else 0 }

/-- A running CPU about to execute the taken BGEZAL. -/
def cBge : MIPSCPU := { mkCPU bgeMem with running := true, pc := 0 }

/-- C10 witness: a not-taken BLTZAL on r0 leaves the registers
unchanged and advances pc by 4; a taken BGEZAL on r0 links the return
address 4 into register 31. -/
theorem C10_bltzal_bgezal_link_witness :
    (cBl.step).reg = cBl.reg ∧ (cBl.step).pc = u32 (cBl.pc + 4)
    ∧ ((cBge.execInstr (cBge.mem.read_u32 cBge.pc) (u32 (cBge.pc + 4))).1).reg 31 =
        u32 (u32 (cBge.pc + 4)) :=
  ⟨(C10_bltzal_bgezal_link.1 cBl rfl (by decide) (by decide) (by decide)).1,
   (C10_bltzal_bgezal_link.1 cBl rfl (by decide) (by decide) (by decide)).2,
   C10_bltzal_bgezal_link.2.2.2 cBge (cBge.mem.read_u32 cBge.pc) (u32 (cBge.pc + 4))
     (by decide) (by decide) (by decide)⟩

/-! ### C2: register 0 -/

/-- The fetched instruction names register 0 as its destination field:
`rd` for the SPECIAL register-ALU family (JALR included — its encoded
destination field is `rd`), `rt` for the immediate-ALU, load and MFC0
families. -/
def namesR0Dest (i : Nat) : Prop :=
  (bits i 26 31 = 0 ∧ bits i 11 15 = 0 ∧
    (bits i 0 5 = 0x00 ∨ bits i 0 5 = 0x02 ∨ bits i 0 5 = 0x03 ∨
     bits i 0 5 = 0x04 ∨ bits i 0 5 = 0x06 ∨ bits i 0 5 = 0x07 ∨
     bits i 0 5 = 0x09 ∨ bits i 0 5 = 0x10 ∨ bits i 0 5 = 0x12 ∨
     bits i 0 5 = 0x21 ∨ bits i 0 5 = 0x23 ∨ bits i 0 5 = 0x24 ∨
     bits i 0 5 = 0x25 ∨ bits i 0 5 = 0x26 ∨ bits i 0 5 = 0x27 ∨
     bits i 0 5 = 0x2A ∨ bits i 0 5 = 0x2B))
  ∨ (bits i 16 20 = 0 ∧
    (bits i 26 31 = 0x08 ∨ bits i 26 31 = 0x09 ∨ bits i 26 31 = 0x0A ∨
     bits i 26 31 = 0x0B ∨ bits i 26 31 = 0x0C ∨ bits i 26 31 = 0x0D ∨
     bits i 26 31 = 0x0E ∨ bits i 26 31 = 0x0F ∨ bits i 26 31 = 0x20 ∨
     bits i 26 31 = 0x21 ∨ bits i 26 31 = 0x23 ∨ bits i 26 31 = 0x24 ∨
     bits i 26 31 = 0x25))
  ∨ (bits i 26 31 = 0x10 ∧ bits i 21 25 = 0 ∧ bits i 16 20 = 0)

instance (i : Nat) : Decidable (namesR0Dest i) := by
  unfold namesR0Dest
  infer_instance

/-- C2 (amended): reads of register 0 always yield 0 and writes to it
are discarded; in every reachable state (reset followed by any number of
steps) the stored register 0 is 0; and every instruction that names
register 0 as its destination leaves all registers unchanged after one
`step()` — except JALR with destination field 0, which redirects the
link write to register 31. -/
theorem C2_register_zero_amended :
    (∀ c : MIPSCPU, c.read_reg 0 = 0)
    ∧ (∀ (c : MIPSCPU) (v : Nat), c.write_reg 0 v = c)
    ∧ (∀ (c : MIPSCPU) (n : Nat), (stepN n c.reset).reg 0 = 0)
    ∧ (∀ c : MIPSCPU, c.running = true →
        namesR0Dest (c.mem.read_u32 c.pc) →
        ¬(bits (c.mem.read_u32 c.pc) 26 31 = 0 ∧
          bits (c.mem.read_u32 c.pc) 0 5 = 0x09) →
        (c.step).reg = c.reg) := by
  refine ⟨fun c => rfl, fun c v => rfl, ?_, ?_⟩
  · intro c n
    induction n with
    | zero => rfl
    | succ n ih =>
      show ((stepN n c.reset).step).reg 0 = 0
      rw [step_reg_zero]
      exact ih
  · intro c hrun hnames hnj
    have hni : c.execInstr (c.mem.read_u32 c.pc) (u32 (c.pc + 4)) = (c, none) := by
      rcases hnames with ⟨hop, hrd, hfn⟩ | ⟨hrt, hops⟩ | ⟨hop, hrs, hrt⟩
      · rcases hfn with hfn | hfn | hfn | hfn | hfn | hfn | hfn | hfn | hfn |
          hfn | hfn | hfn | hfn | hfn | hfn | hfn | hfn <;>
          try simp [MIPSCPU.execInstr, MIPSCPU.execSpecial, MIPSCPU.write_reg, hop, hfn, hrd]
        exact absurd ⟨hop, hfn⟩ hnj
      · rcases hops with hopk | hopk | hopk | hopk | hopk | hopk | hopk |
          hopk | hopk | hopk | hopk | hopk | hopk <;>
        simp [MIPSCPU.execInstr, MIPSCPU.write_reg, hopk, hrt]
      · simp [MIPSCPU.execInstr, MIPSCPU.write_reg, hop, hrs, hrt]
    rw [step_no_branch c hrun c hni]

/-- Memory holding `JALR r0, r1` (0x00200009) at address 0: the
destination field rd is register 0. -/
def jalrMem : Memory :=
  { zeroMem with rdram := fun i => if i = 1 then 0x20 else if i = 3 then 0x09 else 0 }

/-- A running CPU about to execute the JALR with rd = 0, with r1
holding the jump target 0x100. -/
def cJalr : MIPSCPU :=
  { mkCPU jalrMem with
      running := true
      pc := 0
      reg := fun i => if i = 1 then 0x100 else 0 }

/-- C2 counterexample: JALR with destination field 0 names register 0
as its destination, yet one `step()` writes the return address 4 into
register 31 — so not every instruction naming register 0 as destination
leaves the registers unchanged. -/
theorem C2_register_zero_cex :
    namesR0Dest (cJalr.mem.read_u32 cJalr.pc)
    ∧ cJalr.running = true
    ∧ (cJalr.step).reg 31 = 4
    ∧ cJalr.reg 31 = 0
    ∧ (cJalr.step).reg ≠ cJalr.reg := by
  refine ⟨by decide, rfl, by decide, rfl, ?_⟩
  intro h
  have h31 := congrFun h 31
  have hl : (cJalr.step).reg 31 = 4 := by decide
  have hr : cJalr.reg 31 = 0 := rfl
  rw [hl, hr] at h31
  exact absurd h31 (by decide)

/-- Memory holding `ORI r0, r0, 5` (0x34000005) at address 0. -/
def oriMem : Memory :=
  { zeroMem with rdram := fun i => if i = 0 then 0x34 else if i = 3 then 5 else 0 }

/-- A running CPU about to execute the ORI with destination r0. -/
def cOri : MIPSCPU := { mkCPU oriMem with running := true, pc := 0 }

/-- C2 witness: an ORI targeting register 0 leaves every register
unchanged after one step, and two steps after reset the stored register
0 is still 0. -/
theorem C2_register_zero_witness :
    (cOri.step).reg = cOri.reg
    ∧ (stepN 2 ((mkCPU zeroMem).reset)).reg 0 = 0 :=
  ⟨C2_register_zero_amended.2.2.2 cOri rfl (by decide) (by decide),
   C2_register_zero_amended.2.2.1 (mkCPU zeroMem) 2⟩

/-! ### C8: reset -/

/-- C8 (amended): `reset()` restores every `CpuState` field to its fixed
default — registers all zero except register 29 = 0xA4001FF0, `pc` =
0xA4000040, HI, LO, all CP0 registers and the instruction counter zero —
except the running/halted flag, which `reset` leaves unchanged (it does
not return to the idle default). Memory is also untouched. -/
theorem C8_reset_defaults (c : MIPSCPU) :
    (∀ i, (c.reset).reg i = if i = 29 then 0xA4001FF0 else 0)
    ∧ (c.reset).pc = 0xA4000040
    ∧ (c.reset).hi = 0
    ∧ (c.reset).lo = 0
    ∧ (∀ i, (c.reset).cp0 i = 0)
    ∧ (c.reset).instructions = 0
    ∧ (c.reset).running = c.running
    ∧ (c.reset).mem = c.mem := by
  exact ⟨fun i => rfl, rfl, rfl, rfl, fun i => rfl, rfl, rfl, rfl⟩

/-- C8 counterexample: starting from a running CPU, `reset()` leaves the
running flag set, so not every field is restored to its default — the
idle default for the flag (as set by `__init__`) is `false`. -/
theorem C8_reset_running_cex :
    (cRun.reset).running = true ∧ (mkCPU zeroMem).running = false := ⟨rfl, rfl⟩

/-! ### C4: DIV semantics -/

/-- C4: evaluating the DIV helper at dividend -7 (0xFFFFFFF9) and
divisor 2 shows the code bug: LO holds the truncated quotient -3
(0xFFFFFFFD) as the claim says, but HI holds 1 — the Python floor
modulus, which takes the sign of the divisor — instead of the claimed
remainder -1 (0xFFFFFFFF) with the sign of the dividend; consequently
quotient * divisor + remainder ≠ dividend. -/
theorem C4_div_remainder_bug :
    ((mkCPU zeroMem).do_div 0xFFFFFFF9 2 true).lo = 0xFFFFFFFD
    ∧ ((mkCPU zeroMem).do_div 0xFFFFFFF9 2 true).hi = 1
    ∧ ((mkCPU zeroMem).do_div 0xFFFFFFF9 2 true).hi ≠ 0xFFFFFFFF
    ∧ s32 ((mkCPU zeroMem).do_div 0xFFFFFFF9 2 true).lo * s32 2 +
        s32 ((mkCPU zeroMem).do_div 0xFFFFFFF9 2 true).hi ≠ s32 0xFFFFFFF9 := by
  decide

/-! ### C6: boot-stub loader -/

/-- C6: `load_boot_stub_to_sp_dmem` succeeds iff a ROM image is loaded
with length at least 4096; on success SP DMEM holds zeros below offset
0x40 and a copy of the image bytes on [0x40, 0x1000); on failure it
returns false and the whole memory (in particular every byte of SP DMEM)
is exactly as before. -/
theorem C6_boot_stub (m : Memory) :
    ((m.load_boot_stub_to_sp_dmem).2 = true ↔
      ∃ l, m.rom_be = some l ∧ 0x1000 ≤ l.length)
    ∧ (∀ l, m.rom_be = some l → 0x1000 ≤ l.length →
        (∀ i, i < 0x40 → (m.load_boot_stub_to_sp_dmem).1.sp_dmem i = 0)
        ∧ (∀ i, 0x40 ≤ i → i < 0x1000 →
            (m.load_boot_stub_to_sp_dmem).1.sp_dmem i = l.getD i 0))
    ∧ ((m.load_boot_stub_to_sp_dmem).2 = false →
        (m.load_boot_stub_to_sp_dmem).1 = m) := by
  rcases hm : m.rom_be with _ | l
  · have hred : m.load_boot_stub_to_sp_dmem = (m, false) := by
      simp [Memory.load_boot_stub_to_sp_dmem, hm]
    rw [hred]
    refine ⟨by simp, ?_, fun _ => rfl⟩
    intro l he
    exact absurd he (by simp)
  · by_cases hsh : l.isEmpty = true ∨ l.length < 0x1000
    · have hlen : l.length < 0x1000 := by
        rcases hsh with h | h
        · simp [List.isEmpty_iff] at h
          simp [h]
        · exact h
      have hred : m.load_boot_stub_to_sp_dmem = (m, false) := by
        simp only [Memory.load_boot_stub_to_sp_dmem, hm, if_pos hsh]
      rw [hred]
      refine ⟨?_, ?_, fun _ => rfl⟩
      · simp only [Bool.false_eq_true, false_iff]
        rintro ⟨l2, he, hl2⟩
        injection he with he2
        subst he2
        omega
      · intro l2 he hl2
        injection he with he2
        subst he2
        omega
    · have hcond : ¬(l.isEmpty = true ∨ l.length < 0x1000) := hsh
      have hred : m.load_boot_stub_to_sp_dmem =
          ({ m with sp_dmem := fun i =>
              if i < 0x1000 then (if 0x40 ≤ i then l.getD i 0 else 0)
              else m.sp_dmem i }, true) := by
        simp only [Memory.load_boot_stub_to_sp_dmem, hm, if_neg hcond]
      rw [hred]
      push_neg at hsh
      refine ⟨?_, ?_, ?_⟩
      · exact ⟨fun _ => ⟨l, rfl, by omega⟩, fun _ => rfl⟩
      · intro l2 he hl2
        injection he with he2
        subst he2
        constructor
        · intro i hi
          dsimp only
          rw [if_pos (by omega : i < 0x1000), if_neg (by omega : ¬0x40 ≤ i)]
        · intro i hi1 hi2
          dsimp only
          rw [if_pos (by omega : i < 0x1000), if_pos hi1]
      · intro hfail
        exact absurd hfail (by simp)

/-- C6 witness: for a concrete 4096-byte image of 0xAB bytes, the loader
succeeds, SP DMEM offset 0x40 holds 0xAB and offset 0x3F holds 0. -/
theorem C6_boot_stub_witness :
    (bootMem.load_boot_stub_to_sp_dmem).2 = true
    ∧ (bootMem.load_boot_stub_to_sp_dmem).1.sp_dmem 0x40 = 0xAB
    ∧ (bootMem.load_boot_stub_to_sp_dmem).1.sp_dmem 0x3F = 0 := by
  have hlen : (0x1000 : Nat) ≤ (List.replicate 0x1000 (0xAB : Nat)).length := by
    rw [List.length_replicate]
  refine ⟨?_, ?_, ?_⟩
  · exact (C6_boot_stub bootMem).1.mpr ⟨List.replicate 0x1000 0xAB, rfl, hlen⟩
  · have h := ((C6_boot_stub bootMem).2.1 (List.replicate 0x1000 0xAB) rfl hlen).2
      0x40 (by omega) (by omega)
    rw [h, List.getD_eq_getElem?_getD, List.getElem?_replicate_of_lt (by omega)]
    rfl
  · exact ((C6_boot_stub bootMem).2.1 (List.replicate 0x1000 0xAB) rfl hlen).1
      0x3F (by omega)

end Mips
